import Mathlib

/-!
# Verification of the devdocs-adapter acquisition-and-transformation pipeline

Shallow embedding of `src/downloader.ts` (class `Downloader`) and the loading
half of `src/adapter.ts` (class `DevDocsAdapter`) of the devdocs-adapter
repository.

Modelling conventions:
* JavaScript strings are modelled as `List Char` (`Str`); this keeps every
  string operation executable and provable by structural induction.
* The cheerio document tree is modelled by the inductive `Node`
  (element with tag, attribute list, children / text node).
* External, deterministic collaborators that the downloader calls but does not
  define — cheerio's HTML parser (`load`), shiki's highlighter
  (`codeToHtml`), and the CSS-selector snippet query in `_processEntry` —
  are threaded through as explicit function parameters (`P`, `H`, `describe`).
  The highlighter may throw, so `H` returns an `Except`.
* The mutable fields of the `Downloader` instance are gathered in `DlState`,
  together with a model of the file system (`fsFiles`) and a chronological
  log of attempted writes (`events`).
* A thrown-and-not-caught JavaScript exception is an `Except.error`; the
  state reached before the throw is returned alongside, mirroring the fact
  that earlier side effects persist when a promise rejects.
-/

/-- JavaScript strings, modelled as lists of characters. -/
abbrev Str := List Char

/-- Literal helper: the character list of a Lean string literal. -/
def str (s : String) : Str := s.toList

/-- The cheerio document tree: an element with tag name, attribute list and
children, or a text node. -/
inductive Node where
  | elem (tag : Str) (attrs : List (Str × Str)) (children : List Node)
  | text (s : Str)

mutual

/-- Decidable equality on document trees (the automatic derivation does not
handle the nested `List Node`). -/
def Node.decEq : (a b : Node) → Decidable (a = b)
  | Node.text s, Node.text t =>
    if h : s = t then isTrue (by rw [h])
    else isFalse (by intro hc; injection hc; contradiction)
  | Node.text _, Node.elem _ _ _ => isFalse (fun hc => Node.noConfusion hc)
  | Node.elem _ _ _, Node.text _ => isFalse (fun hc => Node.noConfusion hc)
  | Node.elem t1 a1 c1, Node.elem t2 a2 c2 =>
    if h1 : t1 = t2 then
      if h2 : a1 = a2 then
        match Node.decEqList c1 c2 with
        | isTrue h3 => isTrue (by rw [h1, h2, h3])
        | isFalse h3 => isFalse (by intro hc; injection hc; contradiction)
      else isFalse (by intro hc; injection hc; contradiction)
    else isFalse (by intro hc; injection hc; contradiction)

/-- Decidable equality on lists of document trees. -/
def Node.decEqList : (a b : List Node) → Decidable (a = b)
  | [], [] => isTrue rfl
  | [], _ :: _ => isFalse (fun hc => List.noConfusion hc)
  | _ :: _, [] => isFalse (fun hc => List.noConfusion hc)
  | x :: xs, y :: ys =>
    match Node.decEq x y, Node.decEqList xs ys with
    | isTrue h1, isTrue h2 => isTrue (by rw [h1, h2])
    | isFalse h1, _ => isFalse (by intro hc; injection hc; contradiction)
    | isTrue _, isFalse h2 => isFalse (by intro hc; injection hc; contradiction)

end

instance : DecidableEq Node := Node.decEq

instance {ε α : Type} [DecidableEq ε] [DecidableEq α] :
    DecidableEq (Except ε α) := fun a b =>
  match a, b with
  | Except.ok x, Except.ok y =>
    if h : x = y then isTrue (by rw [h])
    else isFalse (by intro hc; injection hc; contradiction)
  | Except.ok _, Except.error _ => isFalse (fun hc => Except.noConfusion hc)
  | Except.error _, Except.ok _ => isFalse (fun hc => Except.noConfusion hc)
  | Except.error x, Except.error y =>
    if h : x = y then isTrue (by rw [h])
    else isFalse (by intro hc; injection hc; contradiction)

/-- Attribute lookup, `el.attr(name)`. -/
def lookupAttr (attrs : List (Str × Str)) (name : Str) : Option Str :=
  match attrs with
  | [] => none
  | (k, v) :: rest => if k = name then some v else lookupAttr rest name

/-- Attribute update, `el.attr(name, value)`: overwrite an existing attribute
in place, otherwise append it. -/
def setAttr (attrs : List (Str × Str)) (name value : Str) : List (Str × Str) :=
  match attrs with
  | [] => [(name, value)]
  | (k, v) :: rest =>
    if k = name then (k, value) :: rest else (k, v) :: setAttr rest name value

mutual

/-- A fixed, deterministic serialization of a document tree, modelling
`document.html()`. Only equality of serializations matters to the claims, so
escaping subtleties of the real serializer are irrelevant. -/
def serializeNode : Node → Str
  | Node.text s => s
  | Node.elem tag attrs children =>
    str "<" ++ tag ++ serializeAttrs attrs ++ str ">" ++
      serializeNodes children ++ str "</" ++ tag ++ str ">"

/-- Serialize an attribute list as ` k="v"` pairs. -/
def serializeAttrs : List (Str × Str) → Str
  | [] => []
  | (k, v) :: rest =>
    str " " ++ k ++ str "=\"" ++ v ++ str "\"" ++ serializeAttrs rest

/-- Serialize a list of children in order. -/
def serializeNodes : List Node → Str
  | [] => []
  | c :: cs => serializeNode c ++ serializeNodes cs

end

mutual

/-- Concatenated descendant text, modelling cheerio's `el.text()`. -/
def textContent : Node → Str
  | Node.text s => s
  | Node.elem _ _ children => textContentList children

/-- Text content of a list of nodes, in order. -/
def textContentList : List Node → Str
  | [] => []
  | c :: cs => textContent c ++ textContentList cs

end

/-! ## Path splitting in `_processEntry` (downloader.ts lines 290-291)

```js
const [ref, anchor] = entry.path.replace(/\.html$/, '').split('#', 2);
const path = ref + '.html';
```
-/

/-- Characters before the first occurrence of `c` (used for the truncating
behaviour of JavaScript `split(sep, 2)`, which discards everything after the
second component). -/
def takeUntil (c : Char) : List Char → List Char
  | [] => []
  | x :: xs => if x = c then [] else x :: takeUntil c xs

/-- `s.split('#', 2)` destructured as `[ref, anchor]`: the part before the
first `#`, and — when a `#` is present — the part between the first and the
second `#` (JavaScript's limit-2 split silently drops any remainder). -/
def splitHash : List Char → Str × Option Str
  | [] => ([], none)
  | x :: xs =>
    if x = '#' then ([], some (takeUntil '#' xs))
    else
      let p := splitHash xs
      (x :: p.1, p.2)

/-- `s.replace(/\.html$/, '')`: remove one trailing `.html` if present. -/
def stripHtmlSuffix (s : Str) : Str :=
  if (str ".html").isSuffixOf s then s.take (s.length - 5) else s

/-- The `(path, anchor)` pair computed at the top of `_processEntry`:
strip a trailing `.html`, split on `#` with limit 2, re-append `.html`. -/
def entryPathAnchor (p : Str) : Str × Option Str :=
  let stripped := stripHtmlSuffix p
  let refAnchor := splitHash stripped
  (refAnchor.1 ++ str ".html", refAnchor.2)

/-! ## The `_processDocument` transform pipeline (downloader.ts lines 195-255) -/

/-- The `Downloader.extraStyle` constant injected into every document head. -/
def extraStyle : Str :=
  str "<style> pre.shiki \x7b padding: 8px 6px; overflow-y: auto; \x7d ._attribution \x7b opacity: 50%; \x7d </style>"

/-- The `Downloader.scriptLink` constant injected into every document head. -/
def scriptLink : Str :=
  str "<script async type=\"module\" nonce=\"%%DEVDOCS-VSCODE-ADAPTER-NONCE%%\" src=\"%%DEVDOCS-VSCODE-ADAPTER-SCRIPT%%\"></script>"

/-- The style fragment appended by `document('head').append(Downloader.extraStyle)`.
Cheerio parses the fragment; its internal structure is irrelevant to every
claim, so the fragment is modelled as one opaque node holding the source text. -/
def styleFragment : Node := Node.text extraStyle

/-- The script fragment appended by `document('head').append(Downloader.scriptLink)`. -/
def scriptFragment : Node := Node.text scriptLink

mutual

/-- `document('head').append(frag)`: append `frag` as last child of every
`head` element. -/
def appendToHeads (frag : Node) : Node → Node
  | Node.text s => Node.text s
  | Node.elem t a cs =>
    if t = str "head" then Node.elem t a (appendToHeadsList frag cs ++ [frag])
    else Node.elem t a (appendToHeadsList frag cs)

/-- `appendToHeads` over a list of children. -/
def appendToHeadsList (frag : Node) : List Node → List Node
  | [] => []
  | c :: cs => appendToHeads frag c :: appendToHeadsList frag cs

end

/-- Whether a node is an `iframe` element. -/
def isIframe : Node → Bool
  | Node.elem t _ _ => t = str "iframe"
  | Node.text _ => false

mutual

/-- `document('iframe').remove()`: drop every `iframe` element. -/
def removeIframes : Node → Node
  | Node.text s => Node.text s
  | Node.elem t a cs => Node.elem t a (removeIframesList cs)

/-- `removeIframes` over a list of children. -/
def removeIframesList : List Node → List Node
  | [] => []
  | c :: rest =>
    if isIframe c then removeIframesList rest
    else removeIframes c :: removeIframesList rest

end

mutual

/-- `document('a').each(function () { this.tagName = 'vscode-link'; })`. -/
def renameLinks : Node → Node
  | Node.text s => Node.text s
  | Node.elem t a cs =>
    Node.elem (if t = str "a" then str "vscode-link" else t) a (renameLinksList cs)

/-- `renameLinks` over a list of children. -/
def renameLinksList : List Node → List Node
  | [] => []
  | c :: cs => renameLinks c :: renameLinksList cs

end

/-- Whether a node is a `thead` or `tbody` element (the selector of the
table restructuring). -/
def isTableBody : Node → Bool
  | Node.elem t _ _ => t = str "thead" || t = str "tbody"
  | Node.text _ => false

/-- Whether a node is a `thead` element (drives the `isHeader` flag). -/
def isThead : Node → Bool
  | Node.elem t _ _ => t = str "thead"
  | Node.text _ => false

/-- Whether a node is an element (cheerio's `.index()` and `.children()`
count element siblings only). -/
def isElem : Node → Bool
  | Node.elem _ _ _ => true
  | Node.text _ => false

mutual

/-- The `document('thead, tbody').each(...)` table restructuring
(downloader.ts lines 215-238) applied to a whole tree. -/
def restructureTables : Node → Node
  | Node.text s => Node.text s
  | Node.elem t a cs => Node.elem t a (restructureChildren cs)

/-- Restructure a child list: every `thead`/`tbody` is replaced in place by
its converted rows (`.insertAfter(el)` followed by `el.remove()` puts the
converted rows exactly where the `thead`/`tbody` stood, inside the table);
all other elements are traversed recursively. -/
def restructureChildren : List Node → List Node
  | [] => []
  | c :: rest => restructureExpand c ++ restructureChildren rest

/-- The in-place replacement for one child: a `thead`/`tbody` becomes its
converted row list, anything else stays a single node traversed
recursively. -/
def restructureExpand : Node → List Node
  | Node.text s => [Node.text s]
  | Node.elem t a cs =>
    if t = str "thead" || t = str "tbody" then
      convertRows (t = str "thead") cs
    else
      [Node.elem t a (restructureChildren cs)]

/-- Convert the rows of one `thead`/`tbody`: `el.children()` yields the
element children only (text children stay inside `el` and vanish with
`el.remove()`). -/
def convertRows (isHeader : Bool) : List Node → List Node
  | [] => []
  | c :: rest => convertRowOut isHeader c ++ convertRows isHeader rest

/-- One converted row: renamed to `vscode-data-grid-row`, header rows get
`row-type="header"`; text children of the `thead`/`tbody` are not rows and
produce nothing. -/
def convertRowOut (isHeader : Bool) : Node → List Node
  | Node.text _ => []
  | Node.elem _ a cs =>
    [Node.elem (str "vscode-data-grid-row")
      (if isHeader then setAttr a (str "row-type") (str "header") else a)
      (convertCells isHeader 0 cs)]

/-- Convert the cells of one row, threading the 1-based element index for
`grid-column`; text children are left in place and carry no index. -/
def convertCells (isHeader : Bool) : Nat → List Node → List Node
  | _, [] => []
  | i, c :: rest =>
    convertCell isHeader i c ::
      convertCells isHeader (if isElem c then i + 1 else i) rest

/-- One converted cell: renamed to `vscode-data-grid-cell` and given its
`grid-column` index and `cell-type` role. -/
def convertCell (isHeader : Bool) (i : Nat) : Node → Node
  | Node.text s => Node.text s
  | Node.elem _ a cs =>
    Node.elem (str "vscode-data-grid-cell")
      (setAttr (setAttr a (str "grid-column") (str (toString (i + 1))))
        (str "cell-type") (if isHeader then str "columnheader" else str "default"))
      (restructureChildren cs)

end

/-- The type of the external shiki highlighter `codeToHtml(text, {lang})`:
deterministic, but may throw (an `Except.error`). -/
abbrev Highlighter := Str → Option Str → Except Unit Str

mutual

/-- The `document('pre').each(...)` highlighting step exactly as written in
`src/downloader.ts` lines 240-246: the `codeToHtml` call is **not** wrapped in
`try`/`catch`, so a highlighter exception propagates out of the whole
transformation. A `pre` element's children are replaced by the highlighted
rendering of its text content. -/
def processPres (H : Highlighter) : Node → Except Unit Node
  | Node.text s => Except.ok (Node.text s)
  | Node.elem t a cs =>
    if t = str "pre" then
      match H (textContentList cs) (lookupAttr a (str "data-language")) with
      | Except.error e => Except.error e
      | Except.ok h => Except.ok (Node.elem t a [Node.text h])
    else
      match processPresList H cs with
      | Except.error e => Except.error e
      | Except.ok cs2 => Except.ok (Node.elem t a cs2)

/-- `processPres` over a list of children, propagating the first failure. -/
def processPresList (H : Highlighter) : List Node → Except Unit (List Node)
  | [] => Except.ok []
  | c :: cs =>
    match processPres H c with
    | Except.error e => Except.error e
    | Except.ok c2 =>
      match processPresList H cs with
      | Except.error e => Except.error e
      | Except.ok cs2 => Except.ok (c2 :: cs2)

end

mutual

/-- The highlighting step of the sibling revision of `_processDocument` kept
in the repository (src/unnamed/part_001 lines 294-302), where the
`codeToHtml` call is wrapped in `try { ... } catch { }`: a failure leaves the
block's original children untouched and processing continues. -/
def processPresCaught (H : Highlighter) : Node → Node
  | Node.text s => Node.text s
  | Node.elem t a cs =>
    if t = str "pre" then
      match H (textContentList cs) (lookupAttr a (str "data-language")) with
      | Except.error _ => Node.elem t a cs
      | Except.ok h => Node.elem t a [Node.text h]
    else Node.elem t a (processPresCaughtList H cs)

/-- `processPresCaught` over a list of children. -/
def processPresCaughtList (H : Highlighter) : List Node → List Node
  | [] => []
  | c :: cs => processPresCaught H c :: processPresCaughtList H cs

end

/-- Whether a node matches `section[aria-labelby="try_it"]`. -/
def isTryItSection : Node → Bool
  | Node.elem t a _ =>
    t = str "section" && lookupAttr a (str "aria-labelby") = some (str "try_it")
  | Node.text _ => false

mutual

/-- `document('section[aria-labelby="try_it"]').remove()`, the
docset-specific fixup applied when the docset name is `javascript`. -/
def removeTryIt : Node → Node
  | Node.text s => Node.text s
  | Node.elem t a cs => Node.elem t a (removeTryItList cs)

/-- `removeTryIt` over a list of children. -/
def removeTryItList : List Node → List Node
  | [] => []
  | c :: rest =>
    if isTryItSection c then removeTryItList rest
    else removeTryIt c :: removeTryItList rest

end

/-! ## Data model (downloader.ts lines 15-40, adapter.ts) -/

/-- A searchable documentation item, `DocItem` of downloader.ts. -/
structure DocItem where
  slug : Str
  name : Str
  path : Str
  anchor : Option Str
  label : Str
  detail : Str
  description : Str
deriving DecidableEq

/-- One entry of the archive's `index.json` manifest, `IndexEntry`. -/
structure IndexEntry where
  name : Str
  path : Str
  type : Str
deriving DecidableEq

/-- The parsed `meta.json` manifest as used by `_download` (it reads
`meta.name`, `meta.slug` and `meta.type`; the latter is usually absent). -/
structure MetaJson where
  name : Str
  slug : Str
  type : Option Str
deriving DecidableEq

/-- The ways the download pipeline can reject: an uncaught highlighter
exception, an uncaught file-system read rejection, an uncaught `JSON.parse`
exception. -/
inductive DlError where
  | hlError
  | fsError
  | jsonError
deriving DecidableEq

/-- Cheerio's HTML parser (`load`), an external deterministic function. -/
abbrev Parser := Str → Node

/-- The snippet query of `_processEntry`
(`document(':is(sel) ~ :is(div, p):not(._attribution)').text()`), a
deterministic function of the parsed document and the optional anchor,
supplied by cheerio's selector engine. -/
abbrev Describe := Node → Option Str → Str

/-- Association-list lookup, modelling `Map.get` / attribute maps keyed by
strings. -/
def alookup (k : Str) : List (Str × α) → Option α
  | [] => none
  | (k2, v) :: rest => if k2 = k then some v else alookup k rest

/-- Association-list insert-or-update, modelling `Map.set` (last write wins). -/
def upsert (k : Str) (v : α) : List (Str × α) → List (Str × α)
  | [] => [(k, v)]
  | (k2, v2) :: rest =>
    if k2 = k then (k2, v) :: rest else (k2, v2) :: upsert k v rest

/-- The mutable fields of one `Downloader` instance (downloader.ts lines
62-71), together with the modelled file system and a chronological log of
attempted writes. -/
structure DlState where
  slug : Str
  docsetPath : Str
  docsetName : Str
  documents : List (Str × Str)
  processedDocuments : List Str
  parsedDocuments : List (Str × Node)
  fsFiles : List (Str × Str)
  events : List (Str × Str)
deriving DecidableEq

/-! ## `_writeFile` (downloader.ts lines 189-193)

```js
const filePath = path.join(this._docsetPath, fileName);
await fs.promises.mkdir(path.dirname(filePath), { recursive: true }).catch(() => { });
await fs.promises.writeFile(filePath, content).catch(this._error);
```
-/

/-- A `.catch(handler)` whose handler swallows the error (both the empty
arrow function on `mkdir` and `this._error`, which only logs, on
`writeFile`). -/
def exceptCatch (e : Except Str Unit) : Except Str Unit :=
  match e with
  | Except.error _ => Except.ok ()
  | Except.ok () => Except.ok ()

/-- The control flow of `_writeFile`, with the outcomes of the two
file-system calls supplied as oracles: both rejections are caught. -/
def writeFileRun (mkdirOut writeOut : Except Str Unit) : Except Str Unit := do
  let _ ← exceptCatch mkdirOut
  exceptCatch writeOut

/-- The state effect of `_writeFile`: the attempt is always logged; the
content lands on disk at `docsetPath/fileName` only when the write
succeeded. -/
def writeFileAttempt (writeOut : Except Str Unit) (st : DlState)
    (fileName content : Str) : DlState :=
  let p := st.docsetPath ++ str "/" ++ fileName
  { st with
    events := st.events ++ [(p, content)]
    fsFiles :=
      match writeOut with
      | Except.ok _ => upsert p content st.fsFiles
      | Except.error _ => st.fsFiles }

/-- `_writeFile` in the ordinary successful-write case. -/
def writeFileSt (st : DlState) (fileName content : Str) : DlState :=
  writeFileAttempt (Except.ok ()) st fileName content

/-! ## `_processDocument` (downloader.ts lines 195-255) -/

/-- The pure rewriting pipeline of `_processDocument`, in source order:
inject the two head fragments, remove iframes, retarget anchors, restructure
tables, highlight `pre` blocks (uncaught on failure), and apply the
`javascript` docset fixup. A function of the parsed document, the
highlighter and the docset name only. -/
def transformTree (H : Highlighter) (docsetName : Str) (d0 : Node) :
    Except Unit Node :=
  let d1 := appendToHeads styleFragment d0
  let d2 := appendToHeads scriptFragment d1
  let d3 := removeIframes d2
  let d4 := renameLinks d3
  let d5 := restructureTables d4
  match processPres H d5 with
  | Except.error e => Except.error e
  | Except.ok d6 =>
    Except.ok (if docsetName = str "javascript" then removeTryIt d6 else d6)

/-- The whole `_processDocument` body with the two `_writeFile` file-system
outcomes supplied as oracles: look the file up in the extracted map (null
when absent), parse, run the rewriting pipeline, persist the serialized
result, and return the in-memory document. -/
def processDocumentFs (P : Parser) (H : Highlighter)
    (mkdirOut writeOut : Except Str Unit) (st : DlState) (fileName : Str) :
    DlState × Except DlError (Option Node) :=
  match alookup fileName st.documents with
  | none => (st, Except.ok none)
  | some raw =>
    match transformTree H st.docsetName (P raw) with
    | Except.error _ => (st, Except.error DlError.hlError)
    | Except.ok d7 =>
      let _ := writeFileRun mkdirOut writeOut
      (writeFileAttempt writeOut st fileName (serializeNode d7),
       Except.ok (some d7))

/-- `_processDocument` with both file-system calls succeeding. -/
def processDocument (P : Parser) (H : Highlighter) (st : DlState)
    (fileName : Str) : DlState × Except DlError (Option Node) :=
  processDocumentFs P H (Except.ok ()) (Except.ok ()) st fileName

/-! ## The two-tier document cache (downloader.ts lines 69-71 and 257-277)

`_parsedDocuments = new LRUMap<string, CheerioAPI>(64)` is modelled as an
association list ordered most-recently-used first, with the fixed capacity
64 of the source.
-/

/-- Remove a key from the LRU list. -/
def lruErase (k : Str) : List (Str × Node) → List (Str × Node)
  | [] => []
  | (k2, v) :: rest =>
    if k2 = k then lruErase k rest else (k2, v) :: lruErase k rest

/-- `LRUMap.get`: move the accessed entry to the most-recent position. -/
def lruTouch (m : List (Str × Node)) (k : Str) : List (Str × Node) :=
  match alookup k m with
  | none => m
  | some v => (k, v) :: lruErase k m

/-- `LRUMap.set` with capacity 64: insert as most recent; when the size
exceeds the capacity, drop the least-recently-used (last) entry. -/
def lruSet (m : List (Str × Node)) (k : Str) (v : Node) : List (Str × Node) :=
  let m2 := (k, v) :: lruErase k m
  if 64 < m2.length then m2.dropLast else m2

/-- `_getDocument` (downloader.ts lines 257-277). The tiers are consulted in
source order: the in-memory LRU, then the processed-on-disk set (a hit reads
`fileName` from disk — the bare relative name, exactly as in the source —
and re-parses), then the full `_processDocument` transform. A non-null
result is promoted into the LRU. The returned `Bool` records whether the
full-transform branch ran. -/
def getDocument (P : Parser) (H : Highlighter) (st : DlState) (fileName : Str) :
    DlState × Except DlError (Option Node × Bool) :=
  match alookup fileName st.parsedDocuments with
  | some d =>
    ({ st with parsedDocuments := lruTouch st.parsedDocuments fileName },
     Except.ok (some d, false))
  | none =>
    if fileName ∈ st.processedDocuments then
      match alookup fileName st.fsFiles with
      | none => (st, Except.error DlError.fsError)
      | some content =>
        let d := P content
        ({ st with parsedDocuments := lruSet st.parsedDocuments fileName d },
         Except.ok (some d, false))
    else
      match processDocument P H st fileName with
      | (st2, Except.error e) => (st2, Except.error e)
      | (st2, Except.ok none) => (st2, Except.ok (none, false))
      | (st2, Except.ok (some d)) =>
        ({ st2 with parsedDocuments := lruSet st2.parsedDocuments fileName d },
         Except.ok (some d, true))

/-! ## `_categorize` and `_processEntry` (downloader.ts lines 279-310) -/

/-- JavaScript `s.includes(pat)`: `pat` occurs as a contiguous substring. -/
def includesStr (s pat : Str) : Bool :=
  if pat.isPrefixOf s then true
  else
    match s with
    | [] => false
    | _ :: rest => includesStr rest pat

/-- `_categorize`: lower-case the declared type and map container-like
substrings to the array icon, everything else to the generic icon. -/
def categorize (entryType : Str) : Str :=
  let ty := entryType.map Char.toLower
  if includesStr ty (str "collection") || includesStr ty (str "container") ||
      includesStr ty (str "array") then
    str "$(symbol-array)"
  else
    str "$(symbol-misc)"

/-- The fixed error snippet for entries whose document is missing. -/
def errMissing : Str := str "ERROR: Documentation missing for item."

/-- `_processEntry`: split the entry path, fetch the document through the
cache, decorate the name with `~ ~` and use the fixed error detail when the
document is unavailable, build label and description. -/
def processEntry (P : Parser) (H : Highlighter) (describe : Describe)
    (st : DlState) (e : IndexEntry) : DlState × Except DlError DocItem :=
  let pa := entryPathAnchor e.path
  match getDocument P H st pa.1 with
  | (st1, Except.error err) => (st1, Except.error err)
  | (st1, Except.ok (doc, _)) =>
    let name :=
      match doc with
      | some _ => e.name
      | none => str "~" ++ e.name ++ str "~"
    let detail :=
      match doc with
      | some d => describe d pa.2
      | none => errMissing
    (st1, Except.ok
      { slug := st1.slug
        name := name
        path := pa.1
        anchor := pa.2
        label := categorize e.type ++ str " " ++ e.name
        detail := detail
        description := st1.docsetName ++ str " - " ++ e.type })

/-- The entry loop of `_download` (lines 352-355): process the entries in
manifest order, stopping at the first uncaught exception. -/
def processEntries (P : Parser) (H : Highlighter) (describe : Describe)
    (st : DlState) : List IndexEntry → DlState × Except DlError (List DocItem)
  | [] => (st, Except.ok [])
  | e :: es =>
    match processEntry P H describe st e with
    | (st1, Except.error err) => (st1, Except.error err)
    | (st1, Except.ok item) =>
      match processEntries P H describe st1 es with
      | (st2, Except.error err) => (st2, Except.error err)
      | (st2, Except.ok items) => (st2, Except.ok (item :: items))

/-! ## `_download` (downloader.ts lines 312-358) and `download` (360-362) -/

/-- `JSON.stringify({name: meta.name, slug: meta.slug, type: meta.type})`,
the content written to `meta.json`; `JSON.stringify` omits a key whose value
is `undefined`. -/
def stringifyMeta (m : MetaJson) : Str :=
  str "\x7b\"name\":\"" ++ m.name ++ str "\",\"slug\":\"" ++ m.slug ++ str "\"" ++
    (match m.type with
     | none => []
     | some t => str ",\"type\":\"" ++ t ++ str "\"") ++ str "\x7d"

/-- `JSON.stringify` of one `DocItem` object (field order of the object
literal returned by `_processEntry`; an `undefined` anchor is omitted). -/
def stringifyItem (it : DocItem) : Str :=
  str "\x7b\"slug\":\"" ++ it.slug ++ str "\",\"name\":\"" ++ it.name ++
    str "\",\"path\":\"" ++ it.path ++ str "\"" ++
    (match it.anchor with
     | none => []
     | some a => str ",\"anchor\":\"" ++ a ++ str "\"") ++
    str ",\"label\":\"" ++ it.label ++ str "\",\"detail\":\"" ++ it.detail ++
    str "\",\"description\":\"" ++ it.description ++ str "\"\x7d"

/-- Comma-join, for `JSON.stringify` of an array. -/
def joinComma : List Str → Str
  | [] => []
  | [s] => s
  | s :: rest => s ++ str "," ++ joinComma rest

/-- `JSON.stringify(items)`, the content written to `items.json`. -/
def stringifyItems (items : List DocItem) : Str :=
  str "[" ++ joinComma (items.map stringifyItem) ++ str "]"

/-- `JSON.parse` of the `meta.json` manifest, an external deterministic
function; `none` is a thrown parse error. -/
abbrev MetaParser := Str → Option MetaJson

/-- `JSON.parse(indexFile).entries as IndexEntry[]`, an external
deterministic function; `none` is a thrown parse error. -/
abbrev IndexParser := Str → Option (List IndexEntry)

/-- The body of `_download` after extraction has completed (downloader.ts
lines 329-357): look up the two manifests (logging and returning normally,
result `none`, when either is absent), parse and persist `meta.json`, set
the docset name, parse the index entries, process them in order, and persist
`items.json` last. -/
def downloadCore (P : Parser) (H : Highlighter) (describe : Describe)
    (parseMeta : MetaParser) (parseIndex : IndexParser) (st : DlState) :
    DlState × Except DlError (Option (List DocItem)) :=
  match alookup (str "index.json") st.documents,
        alookup (str "meta.json") st.documents with
  | some indexRaw, some metaRaw =>
    (match parseMeta metaRaw with
     | none => (st, Except.error DlError.jsonError)
     | some m =>
       let st1 := writeFileSt st (str "meta.json") (stringifyMeta m)
       let st2 := { st1 with docsetName := m.name }
       match parseIndex indexRaw with
       | none => (st2, Except.error DlError.jsonError)
       | some entries =>
         match processEntries P H describe st2 entries with
         | (st3, Except.error e) => (st3, Except.error e)
         | (st3, Except.ok items) =>
           (writeFileSt st3 (str "items.json") (stringifyItems items),
            Except.ok (some items)))
  | _, _ => (st, Except.ok none)

/-- The synchronous head of `_download` (lines 315-320): clear the three
per-download maps and set the current slug and output directory — all on the
shared instance state. The next statement suspends (`await
this._fetchExtract()`). -/
def downloadStart (storePath slug : Str) (st : DlState) : DlState :=
  { st with
    documents := []
    processedDocuments := []
    parsedDocuments := []
    slug := slug
    docsetPath := storePath ++ str "/" ++ slug }

/-- The extraction phase of `_fetchExtract` (lines 162-186): each regular
file of the archive is inserted into the shared `_documents` map
(last write wins). Path normalization of tar entry names is the identity on
the already-normal names used here. -/
def downloadExtract (archive : List (Str × Str)) (st : DlState) : DlState :=
  { st with
    documents := archive.foldl (fun m kv => upsert kv.1 kv.2 m) st.documents }

/-- One whole `_download(slug)` call running without interleaving: start,
the `existsSync` early return (its answer supplied as the oracle
`dirExists`), fetch+extract, then the manifest/entry phase. -/
def downloadSlug (P : Parser) (H : Highlighter) (describe : Describe)
    (parseMeta : MetaParser) (parseIndex : IndexParser)
    (storePath slug : Str) (archive : List (Str × Str))
    (dirExists force : Bool) (st : DlState) :
    DlState × Except DlError (Option (List DocItem)) :=
  let st1 := downloadStart storePath slug st
  if force = false ∧ dirExists then (st1, Except.ok none)
  else downloadCore P H describe parseMeta parseIndex (downloadExtract archive st1)

/-! ## The loader's presence check (adapter.ts lines 47-55) -/

/-- `DevDocsAdapter.load` treats a slug's DocSet as loadable only when both
`<storePath>/<slug>/meta.json` and `<storePath>/<slug>/items.json` exist
(`if (!fs.existsSync(metaPath) || !fs.existsSync(itemsPath))` reports an
error and bails out). -/
def loadPresent (fsFiles : List (Str × Str)) (storePath slug : Str) : Bool :=
  (alookup (storePath ++ str "/" ++ slug ++ str "/meta.json") fsFiles).isSome &&
  (alookup (storePath ++ str "/" ++ slug ++ str "/items.json") fsFiles).isSome

/-! ## Counting helpers and concrete scenarios used by the claims -/

mutual

/-- Number of elements with the given tag in a tree. -/
def countTag (tag : Str) : Node → Nat
  | Node.text _ => 0
  | Node.elem t _ cs => (if t = tag then 1 else 0) + countTagList tag cs

/-- Number of elements with the given tag in a list of trees. -/
def countTagList (tag : Str) : List Node → Nat
  | [] => 0
  | c :: cs => countTag tag c + countTagList tag cs

end

/-- A plain table cell `<td></td>`. -/
def mkCell : Node := Node.elem (str "td") [] []

/-- A table row of `n` plain cells. -/
def mkRow (n : Nat) : Node := Node.elem (str "tr") [] (List.replicate n mkCell)

/-- The claim's input shape: a table with a 2-row `thead` and a 3-row
`tbody`, every row with `n` columns. -/
def exampleTable (n : Nat) : Node :=
  Node.elem (str "table") []
    [Node.elem (str "thead") [] (List.replicate 2 (mkRow n)),
     Node.elem (str "tbody") [] (List.replicate 3 (mkRow n))]

/-- The grid cell the restructuring produces for element index `i` (0-based),
carrying the 1-based `grid-column` and its `cell-type` role. -/
def cellNode (isHeader : Bool) (i : Nat) : Node :=
  Node.elem (str "vscode-data-grid-cell")
    [(str "grid-column", str (toString (i + 1))),
     (str "cell-type", if isHeader then str "columnheader" else str "default")]
    []

/-- The expected cell list for indices `k, k+1, …, k+n-1`. -/
def expectedCells (isHeader : Bool) : Nat → Nat → List Node
  | _, 0 => []
  | k, n + 1 => cellNode isHeader k :: expectedCells isHeader (k + 1) n

/-- The expected converted header row of `n` cells. -/
def headerRowN (n : Nat) : Node :=
  Node.elem (str "vscode-data-grid-row") [(str "row-type", str "header")]
    (expectedCells true 0 n)

/-- The expected converted data row of `n` cells. -/
def dataRowN (n : Nat) : Node :=
  Node.elem (str "vscode-data-grid-row") [] (expectedCells false 0 n)

/-- The five grid rows the restructuring produces for `exampleTable n`. -/
def gridRows (n : Nat) : List Node :=
  List.replicate 2 (headerRowN n) ++ List.replicate 3 (dataRowN n)

/-! ### Concrete scenario for C6 (highlighter failure) -/

/-- A highlighter that fails on the first code block's text and succeeds on
everything else. -/
def c6H : Highlighter := fun t _ =>
  if t = str "code1" then Except.error () else Except.ok (str "HIGHLIGHTED")

/-- A document with two `pre` blocks; `c6H` fails on the first one. -/
def c6doc : Node :=
  Node.elem (str "body") []
    [Node.elem (str "pre") [(str "data-language", str "js")]
      [Node.text (str "code1")],
     Node.elem (str "pre") [] [Node.text (str "code2")]]

/-- A parser mapping any raw text to `c6doc`. -/
def c6P : Parser := fun _ => c6doc

/-- A downloader state holding one extracted file `f.html`. -/
def c6st : DlState :=
  { slug := str "s"
    docsetPath := str "store/s"
    docsetName := str "docs"
    documents := [(str "f.html", str "raw")]
    processedDocuments := []
    parsedDocuments := []
    fsFiles := []
    events := [] }

/-! ### Concrete scenario for C7 (cache capacity / eviction) -/

/-- A trivial parser for the cache scenario. -/
def c7P : Parser := fun s => Node.text s

/-- A total highlighter for the cache scenario. -/
def c7H : Highlighter := fun t _ => Except.ok t

/-- The target path requested twice, character `!`. -/
def c7target : Str := ['!']

/-- 64 further distinct one-character paths. -/
def c7paths : List Str := (List.range 64).map (fun i => [Char.ofNat (65 + i)])

/-- An extracted-file map containing the target and all 64 filler paths. -/
def c7docs : List (Str × Str) :=
  (c7target, str "x") :: c7paths.map (fun p => (p, str "x"))

/-- Initial state for the cache scenario. -/
def c7st0 : DlState :=
  { slug := str "s"
    docsetPath := str "store/s"
    docsetName := str "docs"
    documents := c7docs
    processedDocuments := []
    parsedDocuments := []
    fsFiles := []
    events := [] }

/-- Request one path, keeping only the state. -/
def c7step (st : DlState) (p : Str) : DlState := (getDocument c7P c7H st p).1

/-- State after requesting the target once. -/
def c7st1 : DlState := c7step c7st0 c7target

/-- State after then requesting the 64 filler paths in order. -/
def c7st2 : DlState := c7paths.foldl c7step c7st1

/-! ### Concrete scenario for C3 (partial download) -/

/-- Parser for the partial-download scenario: every document is one `pre`
block. -/
def c3P : Parser := fun _ => Node.elem (str "pre") [] [Node.text (str "x")]

/-- A highlighter that always throws. -/
def c3H : Highlighter := fun _ _ => Except.error ()

/-- Trivial snippet query. -/
def c3D : Describe := fun _ _ => []

/-- Meta manifest parser recognising the raw text `M`. -/
def c3pm : MetaParser := fun s =>
  if s = str "M" then some { name := str "Docs", slug := str "d", type := none }
  else none

/-- Index manifest parser recognising the raw text `I`, with one entry. -/
def c3pi : IndexParser := fun s =>
  if s = str "I" then
    some [{ name := str "Entry", path := str "doc", type := str "Class" }]
  else none

/-- The empty downloader state. -/
def emptySt : DlState :=
  { slug := []
    docsetPath := []
    docsetName := []
    documents := []
    processedDocuments := []
    parsedDocuments := []
    fsFiles := []
    events := [] }

/-- The archive of the partial-download scenario: both manifests and the
document the single entry references. -/
def c3archive : List (Str × Str) :=
  [(str "index.json", str "I"), (str "meta.json", str "M"),
   (str "doc.html", str "raw")]

/-- The aborted download: extraction succeeded, the single entry's
highlighting throws, so `_download` rejects between the `meta.json` and the
`items.json` writes. -/
def c3run : DlState × Except DlError (Option (List DocItem)) :=
  downloadCore c3P c3H c3D c3pm c3pi
    (downloadExtract c3archive (downloadStart (str "store") (str "d") emptySt))

/-! ### Concrete scenario for C9 (interleaved downloads) -/

/-- Trivial parser for the interleaving scenario. -/
def c9P : Parser := fun s => Node.text s

/-- Total highlighter for the interleaving scenario. -/
def c9H : Highlighter := fun t _ => Except.ok t

/-- Trivial snippet query. -/
def c9D : Describe := fun _ _ => []

/-- Slug `a`'s archive: its two manifests (index has no entries). -/
def c9archiveA : List (Str × Str) :=
  [(str "meta.json", str "MA"), (str "index.json", str "IA")]

/-- Meta parser for both slugs' manifests. -/
def c9pm : MetaParser := fun s =>
  if s = str "MA" then some { name := str "DocA", slug := str "a", type := none }
  else if s = str "MB" then some { name := str "DocB", slug := str "b", type := none }
  else none

/-- Index parser for both slugs' manifests. -/
def c9pi : IndexParser := fun s =>
  if s = str "IA" then some []
  else if s = str "IB" then some []
  else none

/-- The interleaved schedule from `download(['a','b'])` =
`Promise.all([this._download('a'), this._download('b')])`:
`_download('a')` runs its synchronous head (clear + set slug/path) and
suspends in `await this._fetchExtract()`; `_download('b')` then runs its own
head on the same shared instance; slug `a`'s fetch completes first, so its
extraction and manifest phase resume — with `this._docsetPath` now pointing
at slug `b`'s directory. -/
def c9interleaved : DlState × Except DlError (Option (List DocItem)) :=
  downloadCore c9P c9H c9D c9pm c9pi
    (downloadExtract c9archiveA
      (downloadStart (str "store") (str "b")
        (downloadStart (str "store") (str "a") emptySt)))

/-- The same download of slug `a` run without interleaving. -/
def c9sequential : DlState × Except DlError (Option (List DocItem)) :=
  downloadCore c9P c9H c9D c9pm c9pi
    (downloadExtract c9archiveA (downloadStart (str "store") (str "a") emptySt))

/-- Projection of a `_processDocument` result to its serialized returned
document (the component the idempotence claim compares). -/
def docResult (r : DlState × Except DlError (Option Node)) :
    Except DlError (Option Str) :=
  r.2.map (Option.map serializeNode)

/-- A manifest entry whose referenced file is absent from `c6st.documents`. -/
def c4wEntry : IndexEntry :=
  { name := str "Missing", path := str "gone", type := str "Class" }

/-- A copy of `c6st` downloading under slug `a` (for the determinism
witness). -/
def c8stA : DlState := { c6st with slug := str "a" }

/-- A copy of `c6st` downloading under slug `b`, with different caches and
write logs but the same extracted bytes. -/
def c8stB : DlState :=
  { c6st with
    slug := str "b"
    parsedDocuments := [(str "other.html", Node.text (str "t"))]
    fsFiles := [(str "store/s/old.html", str "old")]
    events := [(str "store/s/old.html", str "old")] }

/-- The state reached after extracting `c3archive` for slug `d` (start of
the manifest phase), used by the C2 and C3 witnesses. -/
def c2wSt : DlState :=
  downloadExtract c3archive (downloadStart (str "store") (str "d") emptySt)

/-- A successful one-entry download (total highlighter), used by the C2 and
C3 witnesses. -/
def c2wRun : DlState × Except DlError (Option (List DocItem)) :=
  downloadCore c3P c7H c3D c3pm c3pi c2wSt

/-- The item list emitted by the successful run `c2wRun`. -/
def c2wItems : List DocItem :=
  match c2wRun.2 with
  | Except.ok (some items) => items
  | _ => []

/-- A state whose in-memory tier already holds `f.html` (for the cache
witness). -/
def c7wSt : DlState :=
  { c6st with parsedDocuments := [(str "f.html", Node.text (str "doc"))] }

/-- The DocItem `_processEntry` builds when the referenced document is
unavailable: decorated name and the fixed error detail. -/
def missingItem (st : DlState) (e : IndexEntry) : DocItem :=
  { slug := st.slug
    name := str "~" ++ e.name ++ str "~"
    path := (entryPathAnchor e.path).1
    anchor := (entryPathAnchor e.path).2
    label := categorize e.type ++ str " " ++ e.name
    detail := errMissing
    description := st.docsetName ++ str " - " ++ e.type }

/-! # Theorems

Helper lemmas first, then one theorem per claim (with witnesses and
counterexamples as needed).
-/

/-- The first component of `splitHash` never contains `#`. -/
theorem splitHash_fst_no_hash (l : List Char) : '#' ∉ (splitHash l).1 := by
  induction l with
  | nil => simp [splitHash]
  | cons x xs ih =>
    by_cases hx : x = '#'
    · simp [splitHash, hx]
    · simp [splitHash, hx]
      exact ⟨fun h => hx h.symm, ih⟩

/-- The path produced by `_processEntry` never contains a `#` fragment. -/
theorem entryPathAnchor_no_hash (p : Str) : '#' ∉ (entryPathAnchor p).1 := by
  unfold entryPathAnchor
  intro h
  rcases List.mem_append.mp h with h1 | h2
  · exact splitHash_fst_no_hash _ h1
  · simp [str] at h2

/-- C1: `_processEntry` splits an entry path into file path and anchor and
re-appends `.html`. The spec's first example and the no-fragment invariant
hold, but the claimed example `"js/array.html#at" ↦ path "js/array.html"`
fails: the code strips `/\.html$/` *before* splitting on `#`, so a path
whose `.html` precedes the fragment is not stripped and the result is
`"js/array.html.html"` (the order is the opposite of the equivalent
normalization in adapter.ts, which splits first and strips afterwards). -/
theorem c1_code_bug :
    entryPathAnchor (str "api/foo#bar-baz") =
      (str "api/foo.html", some (str "bar-baz")) ∧
    entryPathAnchor (str "js/array.html#at") =
      (str "js/array.html.html", some (str "at")) ∧
    ∀ p, '#' ∉ (entryPathAnchor p).1 :=
  ⟨by decide, by decide, entryPathAnchor_no_hash⟩

/-- C6: in `src/downloader.ts` (lines 240-246) the `codeToHtml` call is not
wrapped in `try`/`catch`, so a highlighter failure on one `pre` block
propagates out of `_processDocument` (aborting the transformation and
persisting nothing) — contradicting the claim; the sibling revision of the
same method kept in the repository (src/unnamed/part_001 lines 294-302)
wraps the call in `try { } catch { }` and behaves exactly as the claim
states: the failing block keeps its original text and the rest of the
document is still transformed. -/
theorem c6_code_bug :
    processPres c6H c6doc = Except.error () ∧
    processDocument c6P c6H c6st (str "f.html") =
      (c6st, Except.error DlError.hlError) ∧
    processPresCaught c6H c6doc =
      Node.elem (str "body") []
        [Node.elem (str "pre") [(str "data-language", str "js")]
          [Node.text (str "code1")],
         Node.elem (str "pre") [] [Node.text (str "HIGHLIGHTED")]] :=
  ⟨rfl, by decide, rfl⟩

/-- C10: `_writeFile` catches both the `mkdir` rejection (empty handler) and
the `writeFile` rejection (`this._error`, which only logs), so no
file-system write outcome ever propagates; and the value returned by
`_processDocument` is independent of those outcomes — the in-memory parsed
document is returned even when persisting it failed. -/
theorem c10_confirmed :
    (∀ mkdirOut writeOut, writeFileRun mkdirOut writeOut = Except.ok ()) ∧
    (∀ (P : Parser) (H : Highlighter) mkdirOut writeOut st fileName,
      (processDocumentFs P H mkdirOut writeOut st fileName).2 =
        (processDocument P H st fileName).2) := by
  constructor
  · intro mk wr
    cases mk <;> cases wr <;> rfl
  · intro P H mk wr st f
    cases halook : alookup f st.documents with
    | none => simp only [processDocument, processDocumentFs, halook]
    | some raw =>
      cases htr : transformTree H st.docsetName (P raw) <;>
        simp only [processDocument, processDocumentFs, halook, htr]

/-- Frame lemma for `_processDocument`: it reads, but never writes, every
instance field except the file system, and it only appends to the write
log. -/
theorem processDocumentFs_frame (P : Parser) (H : Highlighter)
    (mkdirOut writeOut : Except Str Unit) (st : DlState) (f : Str) :
    (processDocumentFs P H mkdirOut writeOut st f).1.slug = st.slug ∧
    (processDocumentFs P H mkdirOut writeOut st f).1.docsetPath = st.docsetPath ∧
    (processDocumentFs P H mkdirOut writeOut st f).1.docsetName = st.docsetName ∧
    (processDocumentFs P H mkdirOut writeOut st f).1.documents = st.documents ∧
    (processDocumentFs P H mkdirOut writeOut st f).1.processedDocuments =
      st.processedDocuments ∧
    (processDocumentFs P H mkdirOut writeOut st f).1.parsedDocuments =
      st.parsedDocuments ∧
    st.events <+: (processDocumentFs P H mkdirOut writeOut st f).1.events := by
  cases halook : alookup f st.documents with
  | none =>
    have h : processDocumentFs P H mkdirOut writeOut st f =
        (st, Except.ok none) := by
      simp [processDocumentFs, halook]
    rw [h]
    exact ⟨rfl, rfl, rfl, rfl, rfl, rfl, List.prefix_rfl⟩
  | some raw =>
    cases htr : transformTree H st.docsetName (P raw) with
    | error e =>
      have h : processDocumentFs P H mkdirOut writeOut st f =
          (st, Except.error DlError.hlError) := by
        simp [processDocumentFs, halook, htr]
      rw [h]
      exact ⟨rfl, rfl, rfl, rfl, rfl, rfl, List.prefix_rfl⟩
    | ok d7 =>
      have h : processDocumentFs P H mkdirOut writeOut st f =
          (writeFileAttempt writeOut st f (serializeNode d7),
           Except.ok (some d7)) := by
        simp [processDocumentFs, halook, htr]
      rw [h]
      cases writeOut <;>
        exact ⟨rfl, rfl, rfl, rfl, rfl, rfl, List.prefix_append _ _⟩

/-- Frame lemma for `_getDocument`: only the parsed-document LRU cache (and,
through a transform, the file system and write log) change. -/
theorem getDocument_frame (P : Parser) (H : Highlighter) (st : DlState)
    (f : Str) :
    (getDocument P H st f).1.slug = st.slug ∧
    (getDocument P H st f).1.docsetPath = st.docsetPath ∧
    (getDocument P H st f).1.docsetName = st.docsetName ∧
    (getDocument P H st f).1.documents = st.documents ∧
    (getDocument P H st f).1.processedDocuments = st.processedDocuments ∧
    st.events <+: (getDocument P H st f).1.events := by
  cases hmem : alookup f st.parsedDocuments with
  | some d =>
    have h : getDocument P H st f =
        ({ st with parsedDocuments := lruTouch st.parsedDocuments f },
         Except.ok (some d, false)) := by
      simp [getDocument, hmem]
    rw [h]
    exact ⟨rfl, rfl, rfl, rfl, rfl, List.prefix_rfl⟩
  | none =>
    by_cases hproc : f ∈ st.processedDocuments
    · cases hfs : alookup f st.fsFiles with
      | none =>
        have h : getDocument P H st f = (st, Except.error DlError.fsError) := by
          simp [getDocument, hmem, hproc, hfs]
        rw [h]
        exact ⟨rfl, rfl, rfl, rfl, rfl, List.prefix_rfl⟩
      | some content =>
        have h : getDocument P H st f =
            ({ st with
                parsedDocuments := lruSet st.parsedDocuments f (P content) },
             Except.ok (some (P content), false)) := by
          simp [getDocument, hmem, hproc, hfs]
        rw [h]
        exact ⟨rfl, rfl, rfl, rfl, rfl, List.prefix_rfl⟩
    · have hframe := processDocumentFs_frame P H (Except.ok ()) (Except.ok ()) st f
      cases hpd : processDocument P H st f with
      | mk st2 r =>
        have hpd' : processDocumentFs P H (Except.ok ()) (Except.ok ()) st f =
            (st2, r) := hpd
        rw [hpd'] at hframe
        cases r with
        | error e =>
          have h : getDocument P H st f = (st2, Except.error e) := by
            simp [getDocument, hmem, hproc, hpd]
          rw [h]
          exact ⟨hframe.1, hframe.2.1, hframe.2.2.1, hframe.2.2.2.1,
            hframe.2.2.2.2.1, hframe.2.2.2.2.2.2⟩
        | ok od =>
          cases od with
          | none =>
            have h : getDocument P H st f = (st2, Except.ok (none, false)) := by
              simp [getDocument, hmem, hproc, hpd]
            rw [h]
            exact ⟨hframe.1, hframe.2.1, hframe.2.2.1, hframe.2.2.2.1,
              hframe.2.2.2.2.1, hframe.2.2.2.2.2.2⟩
          | some d =>
            have h : getDocument P H st f =
                ({ st2 with
                    parsedDocuments := lruSet st2.parsedDocuments f d },
                 Except.ok (some d, true)) := by
              simp [getDocument, hmem, hproc, hpd]
            rw [h]
            exact ⟨hframe.1, hframe.2.1, hframe.2.2.1, hframe.2.2.2.1,
              hframe.2.2.2.2.1, hframe.2.2.2.2.2.2⟩

/-- Shape of a successfully processed entry: state framing plus the exact
values of every `DocItem` field that does not depend on the document
contents. -/
theorem processEntry_shape (P : Parser) (H : Highlighter) (D : Describe)
    (st st1 : DlState) (e : IndexEntry) (it : DocItem)
    (h : processEntry P H D st e = (st1, Except.ok it)) :
    st1.slug = st.slug ∧ st1.docsetPath = st.docsetPath ∧
    st1.docsetName = st.docsetName ∧ st1.documents = st.documents ∧
    st1.processedDocuments = st.processedDocuments ∧
    st.events <+: st1.events ∧
    it.slug = st.slug ∧
    it.path = (entryPathAnchor e.path).1 ∧
    it.anchor = (entryPathAnchor e.path).2 ∧
    it.label = categorize e.type ++ str " " ++ e.name ∧
    it.description = st.docsetName ++ str " - " ++ e.type ∧
    (it.name = e.name ∨ it.name = str "~" ++ e.name ++ str "~") := by
  have hframe := getDocument_frame P H st (entryPathAnchor e.path).1
  cases hget : getDocument P H st (entryPathAnchor e.path).1 with
  | mk stg rg =>
    rw [hget] at hframe
    cases rg with
    | error err =>
      rw [processEntry, hget] at h
      exact absurd h (by simp)
    | ok pair =>
      obtain ⟨doc, b⟩ := pair
      simp only [processEntry, hget] at h
      cases doc with
      | none =>
        rw [Prod.mk.injEq] at h
        obtain ⟨hst, hok⟩ := h
        injection hok with hit
        subst hst
        subst hit
        refine ⟨hframe.1, hframe.2.1, hframe.2.2.1, hframe.2.2.2.1,
          hframe.2.2.2.2.1, hframe.2.2.2.2.2, hframe.1, rfl, rfl, rfl, ?_,
          Or.inr rfl⟩
        show stg.docsetName ++ str " - " ++ e.type =
          st.docsetName ++ str " - " ++ e.type
        rw [hframe.2.2.1]
      | some d =>
        rw [Prod.mk.injEq] at h
        obtain ⟨hst, hok⟩ := h
        injection hok with hit
        subst hst
        subst hit
        refine ⟨hframe.1, hframe.2.1, hframe.2.2.1, hframe.2.2.2.1,
          hframe.2.2.2.2.1, hframe.2.2.2.2.2, hframe.1, rfl, rfl, rfl, ?_,
          Or.inl rfl⟩
        show stg.docsetName ++ str " - " ++ e.type =
          st.docsetName ++ str " - " ++ e.type
        rw [hframe.2.2.1]

/-- Frame lemma for the entry loop: the identity fields are preserved and
the write log only grows, whether or not the loop finishes. -/
theorem processEntries_frame (P : Parser) (H : Highlighter) (D : Describe) :
    ∀ (es : List IndexEntry) (st st2 : DlState)
      (r : Except DlError (List DocItem)),
      processEntries P H D st es = (st2, r) →
      st2.slug = st.slug ∧ st2.docsetPath = st.docsetPath ∧
      st2.docsetName = st.docsetName ∧ st2.documents = st.documents ∧
      st2.processedDocuments = st.processedDocuments ∧
      st.events <+: st2.events := by
  intro es
  induction es with
  | nil =>
    intro st st2 r h
    rw [processEntries] at h
    rw [Prod.mk.injEq] at h
    obtain ⟨hst, _⟩ := h
    subst hst
    exact ⟨rfl, rfl, rfl, rfl, rfl, List.prefix_rfl⟩
  | cons e es ih =>
    intro st st2 r h
    rw [processEntries] at h
    cases hpe : processEntry P H D st e with
    | mk st1 r1 =>
      rw [hpe] at h
      cases r1 with
      | error err =>
        have hframe := getDocument_frame P H st (entryPathAnchor e.path).1
        cases hget : getDocument P H st (entryPathAnchor e.path).1 with
        | mk stg rg =>
          rw [hget] at hframe
          rw [processEntry, hget] at hpe
          cases rg with
          | error err2 =>
            simp only at hpe
            rw [Prod.mk.injEq] at hpe
            obtain ⟨hst1, _⟩ := hpe
            subst hst1
            simp only at h
            rw [Prod.mk.injEq] at h
            obtain ⟨hst2, _⟩ := h
            subst hst2
            exact hframe
          | ok pair =>
            obtain ⟨doc, b⟩ := pair
            cases doc <;> exact absurd (congrArg Prod.snd hpe) (by simp)
      | ok item =>
        have hshape := processEntry_shape P H D st st1 e item hpe
        simp only at h
        cases hrest : processEntries P H D st1 es with
        | mk st3 r3 =>
          rw [hrest] at h
          have hih := ih st1 st3 r3 hrest
          cases r3 with
          | error err =>
            rw [Prod.mk.injEq] at h
            obtain ⟨hst2, _⟩ := h
            subst hst2
            refine ⟨hih.1.trans hshape.1, hih.2.1.trans hshape.2.1,
              hih.2.2.1.trans hshape.2.2.1, hih.2.2.2.1.trans hshape.2.2.2.1,
              hih.2.2.2.2.1.trans hshape.2.2.2.2.1,
              hshape.2.2.2.2.2.1.trans hih.2.2.2.2.2⟩
          | ok items =>
            rw [Prod.mk.injEq] at h
            obtain ⟨hst2, _⟩ := h
            subst hst2
            refine ⟨hih.1.trans hshape.1, hih.2.1.trans hshape.2.1,
              hih.2.2.1.trans hshape.2.2.1, hih.2.2.2.1.trans hshape.2.2.2.1,
              hih.2.2.2.2.1.trans hshape.2.2.2.2.1,
              hshape.2.2.2.2.2.1.trans hih.2.2.2.2.2⟩

/-- Specification of the entry loop on success: one item per entry, in
manifest order, with every content-independent field determined by the
corresponding entry. -/
theorem processEntries_spec (P : Parser) (H : Highlighter) (D : Describe) :
    ∀ (es : List IndexEntry) (st st2 : DlState) (items : List DocItem),
      processEntries P H D st es = (st2, Except.ok items) →
      items.length = es.length ∧
      ∀ (i : Nat) (e : IndexEntry), es[i]? = some e →
        ∃ it, items[i]? = some it ∧
          it.slug = st.slug ∧
          it.path = (entryPathAnchor e.path).1 ∧
          it.anchor = (entryPathAnchor e.path).2 ∧
          it.label = categorize e.type ++ str " " ++ e.name ∧
          it.description = st.docsetName ++ str " - " ++ e.type ∧
          (it.name = e.name ∨ it.name = str "~" ++ e.name ++ str "~") := by
  intro es
  induction es with
  | nil =>
    intro st st2 items h
    rw [processEntries] at h
    rw [Prod.mk.injEq] at h
    obtain ⟨_, hok⟩ := h
    injection hok with hitems
    subst hitems
    exact ⟨rfl, by intro i e he; simp at he⟩
  | cons e es ih =>
    intro st st2 items h
    rw [processEntries] at h
    cases hpe : processEntry P H D st e with
    | mk st1 r1 =>
      rw [hpe] at h
      cases r1 with
      | error err => exact absurd (congrArg Prod.snd h) (by simp)
      | ok item =>
        simp only at h
        cases hrest : processEntries P H D st1 es with
        | mk st3 r3 =>
          rw [hrest] at h
          cases r3 with
          | error err => exact absurd (congrArg Prod.snd h) (by simp)
          | ok items0 =>
            rw [Prod.mk.injEq] at h
            obtain ⟨hst2, hok⟩ := h
            injection hok with hitems
            subst hitems
            have hshape := processEntry_shape P H D st st1 e item hpe
            have hih := ih st1 st3 items0 hrest
            constructor
            · simp [hih.1]
            · intro i e2 he
              cases i with
              | zero =>
                simp only [List.getElem?_cons_zero] at he
                injection he with he2
                subst he2
                exact ⟨item, by simp, hshape.2.2.2.2.2.2⟩
              | succ n =>
                simp only [List.getElem?_cons_succ] at he
                obtain ⟨it, hit, hslug, hpath, hanchor, hlabel, hdescr, hname⟩ :=
                  hih.2 n e2 he
                refine ⟨it, by simp [hit], ?_, hpath, hanchor, hlabel, ?_, hname⟩
                · rw [hslug, hshape.1]
                · rw [hdescr, hshape.2.2.1]

/-- C4: an index entry whose referenced file is absent from the extracted
map (and from both cache tiers, which start empty for a fresh download)
still yields a DocItem — with the name decorated as `~name~` and the detail
equal to the fixed error string — without consuming an exception, and the
entry loop continues with the remaining entries. -/
theorem c4_confirmed (P : Parser) (H : Highlighter) (D : Describe)
    (st : DlState) (e : IndexEntry)
    (hdoc : alookup (entryPathAnchor e.path).1 st.documents = none)
    (hmem : alookup (entryPathAnchor e.path).1 st.parsedDocuments = none)
    (hproc : (entryPathAnchor e.path).1 ∉ st.processedDocuments) :
    processEntry P H D st e = (st, Except.ok (missingItem st e)) ∧
    ∀ es st2 items, processEntries P H D st es = (st2, Except.ok items) →
      processEntries P H D st (e :: es) =
        (st2, Except.ok (missingItem st e :: items)) := by
  have hget : getDocument P H st (entryPathAnchor e.path).1 =
      (st, Except.ok (none, false)) := by
    simp [getDocument, hmem, hproc, processDocument, processDocumentFs, hdoc]
  have h1 : processEntry P H D st e = (st, Except.ok (missingItem st e)) := by
    simp [processEntry, hget, missingItem, errMissing]
  refine ⟨h1, ?_⟩
  intro es st2 items hes
  simp only [processEntries, h1, hes]

/-- C4 witness: a concrete missing entry (its file `gone.html` is not among
the extracted files of `c6st`) is emitted decorated, with processing intact. -/
theorem c4_confirmed_witness :
    processEntry c6P c6H c3D c6st c4wEntry =
      (c6st, Except.ok (missingItem c6st c4wEntry)) :=
  (c4_confirmed c6P c6H c3D c6st c4wEntry (by decide) (by decide)
    (by decide)).1

/-- C8: the document transform is a deterministic function of the raw input
bytes, the highlighter (theme) and the docset name alone — two
`_processDocument` runs from states that agree on the file's extracted bytes
and the docset name return byte-identical serialized documents, whatever
their slugs, caches, file systems or logs. -/
theorem c8_confirmed (P : Parser) (H : Highlighter) (st1 st2 : DlState)
    (f : Str)
    (hdoc : alookup f st1.documents = alookup f st2.documents)
    (hname : st1.docsetName = st2.docsetName) :
    docResult (processDocument P H st1 f) =
      docResult (processDocument P H st2 f) := by
  cases h2 : alookup f st2.documents with
  | none =>
    have h1 : alookup f st1.documents = none := by rw [hdoc, h2]
    simp [docResult, processDocument, processDocumentFs, h1, h2]
  | some raw =>
    have h1 : alookup f st1.documents = some raw := by rw [hdoc, h2]
    cases htr : transformTree H st2.docsetName (P raw) with
    | error e =>
      have htr1 : transformTree H st1.docsetName (P raw) = Except.error e := by
        rw [hname, htr]
      simp [docResult, processDocument, processDocumentFs, h1, h2, htr, htr1]
    | ok d =>
      have htr1 : transformTree H st1.docsetName (P raw) = Except.ok d := by
        rw [hname, htr]
      simp [docResult, processDocument, processDocumentFs, h1, h2, htr, htr1,
        writeFileAttempt]

/-- C8 witness: the same extracted file transformed from two states that
differ in slug, caches, file system and log serializes identically. -/
theorem c8_confirmed_witness :
    docResult (processDocument c6P c7H c8stA (str "f.html")) =
      docResult (processDocument c6P c7H c8stB (str "f.html")) :=
  c8_confirmed c6P c7H c8stA c8stB (str "f.html") rfl rfl

/-- C2: for a well-formed archive (both manifests present and parsing), a
completed `_download` emits exactly one DocItem per index entry, the emitted
list has the manifest's length, and the i-th item is built from the i-th
entry (its path/anchor split, icon label, and `docset - type` description
all match that entry), in manifest order. -/
theorem c2_confirmed (P : Parser) (H : Highlighter) (D : Describe)
    (pm : MetaParser) (pidx : IndexParser) (st st' : DlState)
    (iRaw mRaw : Str) (m : MetaJson) (entries : List IndexEntry)
    (items : List DocItem)
    (hIdx : alookup (str "index.json") st.documents = some iRaw)
    (hMeta : alookup (str "meta.json") st.documents = some mRaw)
    (hpm : pm mRaw = some m)
    (hpi : pidx iRaw = some entries)
    (hrun : downloadCore P H D pm pidx st = (st', Except.ok (some items))) :
    items.length = entries.length ∧
    ∀ (i : Nat) (e : IndexEntry), entries[i]? = some e →
      ∃ it, items[i]? = some it ∧
        it.slug = st.slug ∧
        it.path = (entryPathAnchor e.path).1 ∧
        it.anchor = (entryPathAnchor e.path).2 ∧
        it.label = categorize e.type ++ str " " ++ e.name ∧
        it.description = m.name ++ str " - " ++ e.type ∧
        (it.name = e.name ∨ it.name = str "~" ++ e.name ++ str "~") := by
  simp only [downloadCore, hIdx, hMeta, hpm, hpi] at hrun
  cases hpe : processEntries P H D
      { writeFileSt st (str "meta.json") (stringifyMeta m) with
        docsetName := m.name } entries with
  | mk st3 r3 =>
    rw [hpe] at hrun
    cases r3 with
    | error err => exact absurd (congrArg Prod.snd hrun) (by simp)
    | ok its =>
      have hitems : its = items := by
        have := congrArg Prod.snd hrun
        simp only at this
        injection this with h2
        injection h2
      subst hitems
      obtain ⟨hlen, hidx2⟩ := processEntries_spec P H D entries _ st3 its hpe
      exact ⟨hlen, hidx2⟩

/-- C2 witness: the concrete one-entry download `c2wRun` emits exactly one
item. -/
theorem c2_confirmed_witness :
    c2wItems.length =
      [({ name := str "Entry", path := str "doc", type := str "Class" } :
        IndexEntry)].length :=
  (c2_confirmed c3P c7H c3D c3pm c3pi c2wSt c2wRun.1 (str "I") (str "M")
    { name := str "Docs", slug := str "d", type := none }
    [{ name := str "Entry", path := str "doc", type := str "Class" }]
    c2wItems (by decide) (by decide) (by decide) (by decide) (by decide)).1

/-- C3 counterexample: a download whose single entry fails mid-processing
(the highlighter throws) rejects *after* `meta.json` has been persisted and
*before* `items.json` is, leaving exactly the on-disk state the claim says
can never occur — `meta.json` present without `items.json` (the loader then
refuses the docset). `meta.json` is written at downloader.ts line 341,
before the entry loop of lines 352-355. -/
theorem c3_counterexample :
    c3run.2 = Except.error DlError.hlError ∧
    (alookup (str "store/d/meta.json") c3run.1.fsFiles).isSome = true ∧
    alookup (str "store/d/items.json") c3run.1.fsFiles = none ∧
    loadPresent c3run.1.fsFiles (str "store") (str "d") = false := by
  decide

/-- C3 amended: `meta.json` is written first — before any entry is processed
— and `items.json` is written only after every entry has been processed
successfully, so a failed or aborted download can leave `meta.json` on disk
without `items.json` (see the counterexample); the loader guards against
this by treating a DocSet as loadable only when both files exist. -/
theorem c3_corrected :
    (∀ (P : Parser) (H : Highlighter) (D : Describe) (pm : MetaParser)
       (pidx : IndexParser) (st st' : DlState) (iRaw mRaw : Str)
       (m : MetaJson) (entries : List IndexEntry) (items : List DocItem),
      alookup (str "index.json") st.documents = some iRaw →
      alookup (str "meta.json") st.documents = some mRaw →
      pm mRaw = some m →
      pidx iRaw = some entries →
      downloadCore P H D pm pidx st = (st', Except.ok (some items)) →
      ∃ mid, st'.events =
        st.events ++
          [(st.docsetPath ++ str "/" ++ str "meta.json", stringifyMeta m)] ++
          mid ++
          [(st.docsetPath ++ str "/" ++ str "items.json",
            stringifyItems items)]) ∧
    (∀ (fsFiles : List (Str × Str)) (storePath slug : Str),
      loadPresent fsFiles storePath slug = true ↔
        (alookup (storePath ++ str "/" ++ slug ++ str "/meta.json")
          fsFiles).isSome = true ∧
        (alookup (storePath ++ str "/" ++ slug ++ str "/items.json")
          fsFiles).isSome = true) := by
  constructor
  · intro P H D pm pidx st st' iRaw mRaw m entries items hIdx hMeta hpm hpi hrun
    simp only [downloadCore, hIdx, hMeta, hpm, hpi] at hrun
    cases hpe : processEntries P H D
        { writeFileSt st (str "meta.json") (stringifyMeta m) with
          docsetName := m.name } entries with
    | mk st3 r3 =>
      rw [hpe] at hrun
      cases r3 with
      | error err => exact absurd (congrArg Prod.snd hrun) (by simp)
      | ok its =>
        have hitems : its = items := by
          have := congrArg Prod.snd hrun
          simp only at this
          injection this with h2
          injection h2
        subst hitems
        have hframe := processEntries_frame P H D entries _ st3 (Except.ok its) hpe
        obtain ⟨mid, hmid⟩ := hframe.2.2.2.2.2
        have hst' : st' = writeFileSt st3 (str "items.json")
            (stringifyItems its) := by
          have := congrArg Prod.fst hrun
          simp only at this
          exact this.symm
        refine ⟨mid, ?_⟩
        rw [hst']
        show st3.events ++
            [(st3.docsetPath ++ str "/" ++ str "items.json",
              stringifyItems its)] = _
        rw [← hmid, hframe.2.1]
        show ((st.events ++ _) ++ mid) ++ _ = _
        simp [List.append_assoc]
        rfl
  · intro fsFiles storePath slug
    simp [loadPresent, Bool.and_eq_true]

/-- C3 amended witness: the successful one-entry run `c2wRun` shows the
event order — `meta.json` first, `items.json` last. -/
theorem c3_corrected_witness :
    ∃ mid, c2wRun.1.events =
      c2wSt.events ++
        [(c2wSt.docsetPath ++ str "/" ++ str "meta.json",
          stringifyMeta { name := str "Docs", slug := str "d", type := none })] ++
        mid ++
        [(c2wSt.docsetPath ++ str "/" ++ str "items.json",
          stringifyItems c2wItems)] :=
  c3_corrected.1 c3P c7H c3D c3pm c3pi c2wSt c2wRun.1 (str "I") (str "M")
    { name := str "Docs", slug := str "d", type := none }
    [{ name := str "Entry", path := str "doc", type := str "Class" }]
    c2wItems (by decide) (by decide) (by decide) (by decide) (by decide)

/-- One plain cell converts to the expected grid cell. -/
theorem convertCell_mkCell (h : Bool) (k : Nat) :
    convertCell h k mkCell = cellNode h k := rfl

/-- The cell conversion of a row of `n` plain cells, starting at element
index `k`. -/
theorem convertCells_replicate (h : Bool) :
    ∀ (n k : Nat),
      convertCells h k (List.replicate n mkCell) = expectedCells h k n := by
  intro n
  induction n with
  | zero => intro k; rfl
  | succ n ih =>
    intro k
    rw [List.replicate_succ]
    show convertCell h k mkCell ::
        convertCells h (if isElem mkCell then k + 1 else k)
          (List.replicate n mkCell) =
      cellNode h k :: expectedCells h (k + 1) n
    rw [convertCell_mkCell, ih]
    rfl

/-- Index lookup in the expected cell list: the cell at 0-based position `i`
carries element index `k + i`. -/
theorem expectedCells_get (h : Bool) :
    ∀ (n k i : Nat), i < n →
      (expectedCells h k n)[i]? = some (cellNode h (k + i)) := by
  intro n
  induction n with
  | zero => intro k i hi; omega
  | succ n ih =>
    intro k i hi
    cases i with
    | zero => simp [expectedCells]
    | succ j =>
      have hj : j < n := by omega
      rw [show expectedCells h k (n + 1) =
        cellNode h k :: expectedCells h (k + 1) n from rfl]
      rw [List.getElem?_cons_succ]
      rw [ih (k + 1) j hj]
      exact congrArg (fun x => some (cellNode h x)) (by omega)

/-- Length of the expected cell list. -/
theorem expectedCells_length (h : Bool) :
    ∀ (n k : Nat), (expectedCells h k n).length = n := by
  intro n
  induction n with
  | zero => intro k; rfl
  | succ n ih => intro k; simp [expectedCells, ih]

/-- Tag counting over the expected cell list: each cell is a
`vscode-data-grid-cell` element with no element children. -/
theorem countTag_expectedCells (tag : Str) (h : Bool) :
    ∀ (n k : Nat), countTagList tag (expectedCells h k n) =
      if str "vscode-data-grid-cell" = tag then n else 0 := by
  intro n
  induction n with
  | zero => intro k; simp [expectedCells, countTagList]
  | succ n ih =>
    intro k
    simp only [expectedCells, countTagList, cellNode, countTag, ih]
    by_cases htag : str "vscode-data-grid-cell" = tag <;>
      simp [htag, Nat.add_comm]

/-- The restructuring of the 2+3-row example table, computed down to the cell
conversions. -/
theorem restructure_exampleTable (n : Nat) :
    restructureTables (exampleTable n) =
      Node.elem (str "table") [] (gridRows n) := by
  have hexp : restructureTables (exampleTable n) =
      Node.elem (str "table") []
        [Node.elem (str "vscode-data-grid-row")
           [(str "row-type", str "header")]
           (convertCells true 0 (List.replicate n mkCell)),
         Node.elem (str "vscode-data-grid-row")
           [(str "row-type", str "header")]
           (convertCells true 0 (List.replicate n mkCell)),
         Node.elem (str "vscode-data-grid-row") []
           (convertCells false 0 (List.replicate n mkCell)),
         Node.elem (str "vscode-data-grid-row") []
           (convertCells false 0 (List.replicate n mkCell)),
         Node.elem (str "vscode-data-grid-row") []
           (convertCells false 0 (List.replicate n mkCell))] := rfl
  rw [hexp]
  simp only [convertCells_replicate]
  simp [gridRows, headerRowN, dataRowN, List.replicate]

/-- C5 counterexample: for the concrete 2+3-row, 1-column table document,
the converted grid rows end up as *children* of the still-present `table`
element — the code's `.insertAfter(el)` targets the `thead`/`tbody` element
`el`, not the table, and only the `thead`/`tbody` is removed — so the
claim's "rows inserted immediately after the original table element, and the
original table structurally absent afterward" is false. -/
theorem c5_counterexample :
    restructureTables (exampleTable 1) =
      Node.elem (str "table") [] (gridRows 1) ∧
    countTag (str "table") (restructureTables (exampleTable 1)) = 1 := by
  constructor
  · decide
  · decide

/-- C5 amended: a 2-row `thead`/3-row `tbody` table of `n` columns becomes
exactly 5 `vscode-data-grid-row` elements — placed exactly where the
`thead`/`tbody` stood, inside the still-present `table` element — each with
exactly `n` `vscode-data-grid-cell` elements; the cell at 0-based position
`i` carries the 1-based `grid-column` index `i+1`; the two header rows carry
`row-type="header"` and `cell-type="columnheader"` while data rows carry no
`row-type` and `cell-type="default"`; and the original `thead`/`tbody`
elements are structurally absent afterward. -/
theorem c5_corrected (n : Nat) :
    restructureTables (exampleTable n) =
      Node.elem (str "table") [] (gridRows n) ∧
    gridRows n =
      [headerRowN n, headerRowN n, dataRowN n, dataRowN n, dataRowN n] ∧
    (gridRows n).length = 5 ∧
    headerRowN n = Node.elem (str "vscode-data-grid-row")
      [(str "row-type", str "header")] (expectedCells true 0 n) ∧
    dataRowN n = Node.elem (str "vscode-data-grid-row") []
      (expectedCells false 0 n) ∧
    (expectedCells true 0 n).length = n ∧
    (expectedCells false 0 n).length = n ∧
    (∀ i, i < n →
      (expectedCells true 0 n)[i]? = some (cellNode true i) ∧
      (expectedCells false 0 n)[i]? = some (cellNode false i)) ∧
    (∀ i, cellNode true i = Node.elem (str "vscode-data-grid-cell")
        [(str "grid-column", str (toString (i + 1))),
         (str "cell-type", str "columnheader")] [] ∧
      cellNode false i = Node.elem (str "vscode-data-grid-cell")
        [(str "grid-column", str (toString (i + 1))),
         (str "cell-type", str "default")] []) ∧
    countTag (str "vscode-data-grid-row")
      (restructureTables (exampleTable n)) = 5 ∧
    countTag (str "vscode-data-grid-cell")
      (restructureTables (exampleTable n)) = 5 * n ∧
    countTag (str "thead") (restructureTables (exampleTable n)) = 0 ∧
    countTag (str "tbody") (restructureTables (exampleTable n)) = 0 ∧
    countTag (str "table") (restructureTables (exampleTable n)) = 1 := by
  have hmain := restructure_exampleTable n
  have hrows : gridRows n =
      [headerRowN n, headerRowN n, dataRowN n, dataRowN n, dataRowN n] := by
    simp [gridRows, List.replicate]
  refine ⟨hmain, hrows, by rw [hrows]; rfl, rfl, rfl,
    expectedCells_length true n 0, expectedCells_length false n 0,
    fun i hi => ⟨by simpa using expectedCells_get true n 0 i hi,
      by simpa using expectedCells_get false n 0 i hi⟩,
    fun i => ⟨rfl, rfl⟩, ?_, ?_, ?_, ?_, ?_⟩ <;>
  · rw [hmain, hrows]
    simp only [countTag, countTagList, headerRowN, dataRowN,
      countTag_expectedCells]
    simp +decide <;> omega

/-- Erasing an absent key from the LRU list is the identity. -/
theorem lruErase_of_not_mem (k : Str) :
    ∀ m, alookup k m = none → lruErase k m = m := by
  intro m
  induction m with
  | nil => intro h; rfl
  | cons kv rest ih =>
    obtain ⟨k2, v⟩ := kv
    intro h
    rw [alookup] at h
    by_cases hk : k2 = k
    · rw [if_pos hk] at h
      exact absurd h (by simp)
    · rw [if_neg hk] at h
      rw [lruErase, if_neg hk, ih h]

/-- A freshly `set` key is found at the most-recent position, even when the
insertion evicted the oldest entry. -/
theorem alookup_lruSet_self (m : List (Str × Node)) (k : Str) (v : Node) :
    alookup k (lruSet m k v) = some v := by
  rw [lruSet]
  by_cases h : 64 < ((k, v) :: lruErase k m).length
  · rw [if_pos h]
    cases herase : lruErase k m with
    | nil =>
      rw [herase] at h
      simp at h
    | cons kv2 rest =>
      rw [show ((k, v) :: kv2 :: rest).dropLast =
        (k, v) :: (kv2 :: rest).dropLast from rfl]
      simp [alookup]
  · rw [if_neg h]
    simp [alookup]

/-- After any successful `_getDocument` that returned a document, that
document sits in the in-memory tier under its path. -/
theorem getDocument_promotes (P : Parser) (H : Highlighter)
    (st st1 : DlState) (f : Str) (d : Node) (b : Bool)
    (h : getDocument P H st f = (st1, Except.ok (some d, b))) :
    alookup f st1.parsedDocuments = some d := by
  cases hmem : alookup f st.parsedDocuments with
  | some d0 =>
    simp only [getDocument, hmem] at h
    rw [Prod.mk.injEq] at h
    obtain ⟨hst1, hok⟩ := h
    injection hok with hpair
    rw [Prod.mk.injEq] at hpair
    obtain ⟨hd, _⟩ := hpair
    injection hd with hd2
    subst hst1
    show alookup f (lruTouch st.parsedDocuments f) = some d
    rw [lruTouch, hmem]
    simp [alookup, hd2]
  | none =>
    by_cases hproc : f ∈ st.processedDocuments
    · cases hfs : alookup f st.fsFiles with
      | none =>
        simp only [getDocument, hmem, hproc, hfs, if_true] at h
        exact absurd (congrArg Prod.snd h) (by simp)
      | some content =>
        simp only [getDocument, hmem, hproc, hfs, if_true] at h
        rw [Prod.mk.injEq] at h
        obtain ⟨hst1, hok⟩ := h
        injection hok with hpair
        rw [Prod.mk.injEq] at hpair
        obtain ⟨hd, _⟩ := hpair
        injection hd with hd2
        subst hst1
        show alookup f (lruSet st.parsedDocuments f (P content)) = some d
        rw [alookup_lruSet_self]
        rw [hd2]
    · cases hpd : processDocument P H st f with
      | mk st2 r =>
        cases r with
        | error e =>
          simp only [getDocument, hmem, hproc, hpd, if_false] at h
          exact absurd (congrArg Prod.snd h) (by simp)
        | ok od =>
          cases od with
          | none =>
            simp only [getDocument, hmem, hproc, hpd, if_false] at h
            exact absurd (congrArg Prod.snd h) (by simp)
          | some d2 =>
            simp only [getDocument, hmem, hproc, hpd, if_false] at h
            rw [Prod.mk.injEq] at h
            obtain ⟨hst1, hok⟩ := h
            injection hok with hpair
            rw [Prod.mk.injEq] at hpair
            obtain ⟨hd, _⟩ := hpair
            injection hd with hd3
            subst hst1
            show alookup f (lruSet st2.parsedDocuments f d2) = some d
            rw [alookup_lruSet_self, hd3]

/-- C7 amended: (1) a second request for a path whose first request returned
a document is served from the in-memory tier with no transformation or parse
(so requesting the same path twice *without an intervening eviction*
performs at most one transformation); (2) the tiers are consulted in the
strict source order — an in-memory hit returns immediately, a
processed-on-disk hit re-reads and re-parses but never re-transforms, and
only a full miss falls through to `_processDocument`, whose result is
promoted into the in-memory tier; (3) the LRU capacity is exactly 64 and
inserting a 65th distinct entry evicts precisely the least-recently-used
(oldest) entry. The claim's unconditional "same path twice ⇒ at most one
transformation" is false: after 64 intervening distinct requests the path is
evicted and transformed again (see the counterexample). -/
theorem c7_corrected :
    (∀ (P : Parser) (H : Highlighter) (st st1 : DlState) (f : Str) (d : Node)
       (b : Bool),
      getDocument P H st f = (st1, Except.ok (some d, b)) →
      getDocument P H st1 f =
        ({ st1 with parsedDocuments := lruTouch st1.parsedDocuments f },
         Except.ok (some d, false))) ∧
    (∀ (P : Parser) (H : Highlighter) (st : DlState) (f : Str) (d : Node),
      alookup f st.parsedDocuments = some d →
      getDocument P H st f =
        ({ st with parsedDocuments := lruTouch st.parsedDocuments f },
         Except.ok (some d, false))) ∧
    (∀ (P : Parser) (H : Highlighter) (st : DlState) (f c : Str),
      alookup f st.parsedDocuments = none →
      f ∈ st.processedDocuments →
      alookup f st.fsFiles = some c →
      getDocument P H st f =
        ({ st with parsedDocuments := lruSet st.parsedDocuments f (P c) },
         Except.ok (some (P c), false))) ∧
    (∀ (P : Parser) (H : Highlighter) (st st2 : DlState) (f : Str) (d : Node),
      alookup f st.parsedDocuments = none →
      f ∉ st.processedDocuments →
      processDocument P H st f = (st2, Except.ok (some d)) →
      getDocument P H st f =
        ({ st2 with parsedDocuments := lruSet st2.parsedDocuments f d },
         Except.ok (some d, true))) ∧
    (∀ (P : Parser) (H : Highlighter) (st st2 : DlState) (f : Str) (d : Node),
      alookup f st.parsedDocuments = none →
      f ∉ st.processedDocuments →
      st.parsedDocuments.length = 64 →
      processDocument P H st f = (st2, Except.ok (some d)) →
      (getDocument P H st f).1.parsedDocuments =
        (f, d) :: st.parsedDocuments.dropLast) := by
  have tier1 : ∀ (P : Parser) (H : Highlighter) (st : DlState) (f : Str)
      (d : Node), alookup f st.parsedDocuments = some d →
      getDocument P H st f =
        ({ st with parsedDocuments := lruTouch st.parsedDocuments f },
         Except.ok (some d, false)) := by
    intro P H st f d hmem
    simp [getDocument, hmem]
  have tier3 : ∀ (P : Parser) (H : Highlighter) (st st2 : DlState) (f : Str)
      (d : Node), alookup f st.parsedDocuments = none →
      f ∉ st.processedDocuments →
      processDocument P H st f = (st2, Except.ok (some d)) →
      getDocument P H st f =
        ({ st2 with parsedDocuments := lruSet st2.parsedDocuments f d },
         Except.ok (some d, true)) := by
    intro P H st st2 f d hmem hproc hpd
    simp [getDocument, hmem, hproc, hpd]
  refine ⟨?_, tier1, ?_, tier3, ?_⟩
  · intro P H st st1 f d b h
    exact tier1 P H st1 f d (getDocument_promotes P H st st1 f d b h)
  · intro P H st f c hmem hproc hfs
    simp [getDocument, hmem, hproc, hfs]
  · intro P H st st2 f d hmem hproc hlen hpd
    rw [tier3 P H st st2 f d hmem hproc hpd]
    show lruSet st2.parsedDocuments f d = (f, d) :: st.parsedDocuments.dropLast
    have hframe := processDocumentFs_frame P H (Except.ok ()) (Except.ok ()) st f
    have hpd' : processDocumentFs P H (Except.ok ()) (Except.ok ()) st f =
        (st2, Except.ok (some d)) := hpd
    rw [hpd'] at hframe
    have hparsed : st2.parsedDocuments = st.parsedDocuments :=
      hframe.2.2.2.2.2.1
    rw [lruSet, hparsed, lruErase_of_not_mem f st.parsedDocuments hmem]
    rw [if_pos (by rw [List.length_cons, hlen]; omega)]
    cases hp : st.parsedDocuments with
    | nil => rw [hp] at hlen; simp at hlen
    | cons kv rest => rfl

/-- C7 amended witness: a path already in the in-memory tier is served from
it, untransformed. -/
theorem c7_corrected_witness :
    getDocument c7P c7H c7wSt (str "f.html") =
      ({ c7wSt with
          parsedDocuments := lruTouch c7wSt.parsedDocuments (str "f.html") },
       Except.ok (some (Node.text (str "doc")), false)) :=
  c7_corrected.2.1 c7P c7H c7wSt (str "f.html") (Node.text (str "doc")) rfl

set_option maxRecDepth 100000

/-- C7 counterexample: within one run, requesting the target path, then 64
distinct other paths, then the target again performs *two* full
transformations of the target — the 65th distinct insertion evicted it from
the 64-entry LRU and the processed-on-disk set is never populated (the
source never adds to `_processedDocuments`), so the claim's "requesting the
same file path twice within one run performs at most one
transformation/parse" is false; the third conjunct confirms the target was
evicted first. -/
theorem c7_counterexample :
    (getDocument c7P c7H c7st0 c7target).2.map Prod.snd = Except.ok true ∧
    (getDocument c7P c7H c7st2 c7target).2.map Prod.snd = Except.ok true ∧
    (alookup c7target c7st2.parsedDocuments).isNone = true := by
  decide

/-- C9: the per-download working state is NOT independently owned — it lives
in shared instance fields. In the interleaving where `_download('a')` runs
its synchronous head, suspends in `await this._fetchExtract()`,
`_download('b')` then runs its own head (clearing the shared maps and
re-pointing `this._slug`/`this._docsetPath`), and slug `a`'s
fetch-extraction and manifest phase complete first, slug `a`'s `meta.json`
content is written into slug `b`'s directory (`store/b/meta.json`) and
nothing at all is written under `store/a` — exactly the cross-slug write the
claim says cannot happen. The same download run without interleaving writes
into its own directory. -/
theorem c9_code_bug :
    alookup (str "store/b/meta.json") c9interleaved.1.fsFiles =
      some (stringifyMeta
        { name := str "DocA", slug := str "a", type := none }) ∧
    alookup (str "store/a/meta.json") c9interleaved.1.fsFiles = none ∧
    alookup (str "store/a/items.json") c9interleaved.1.fsFiles = none ∧
    alookup (str "store/a/meta.json") c9sequential.1.fsFiles =
      some (stringifyMeta
        { name := str "DocA", slug := str "a", type := none }) ∧
    alookup (str "store/b/meta.json") c9sequential.1.fsFiles = none := by
  decide

/-- C1 witness: a concrete fragment path whose normalized file path carries
no `#`. -/
theorem c1_code_bug_witness : '#' ∉ (entryPathAnchor (str "api/foo#bar-baz")).1 :=
  c1_code_bug.2.2 (str "api/foo#bar-baz")

/-- C5 amended witness: the restructuring of the concrete 2-column example
table. -/
theorem c5_corrected_witness :
    restructureTables (exampleTable 2) =
      Node.elem (str "table") [] (gridRows 2) :=
  (c5_corrected 2).1
